import Mathlib

/-!
Verification of the core of a pure-rust X11 connection (`rust_connection/mod.rs`
and `x11_utils.rs`) against its natural-language specification.

Bytes are modelled as natural numbers below 256, byte buffers as `List Nat`.
Machine integers are modelled as `Nat`/`Int` with explicit reduction modulo
`2 ^ width` at the points where the Rust code performs fixed-width arithmetic.
Native byte order (`from_ne_bytes` / `to_ne_bytes`) is modelled as
little-endian, the byte order of all platforms the crate targets.
The platform word size (`usize`) is fixed at the common 64 bits.
-/

/-- The number of bits in `usize` on the modelled (64-bit) platform. -/
def usizeBits : Nat := 64

/-- `usize::MAX` on the modelled platform. -/
def usizeMax : Nat := 2 ^ usizeBits - 1

/-- `u32::from_ne_bytes([b0, b1, b2, b3])`, native order modelled as little-endian. -/
def u32_of_ne_bytes (b0 b1 b2 b3 : Nat) : Nat :=
  b0 + 256 * b1 + 65536 * b2 + 16777216 * b3

/-- `u16::from_ne_bytes([b0, b1])`, native order modelled as little-endian. -/
def u16_of_ne_bytes (b0 b1 : Nat) : Nat :=
  b0 + 256 * b1

/-- Modelled from the spec: the generated constant `xproto::GE_GENERIC_EVENT`
(the generated protocol code is not part of the sources under consideration);
the spec fixes the generic-event opcode at `0x23`. -/
def GE_GENERIC_EVENT : Nat := 0x23

/-- `REPLY` (`x11_utils.rs` and `read_packet`): byte 0 of a reply packet. -/
def REPLY : Nat := 1

/-- `SENT_GE_GENERIC_EVENT = GE_GENERIC_EVENT | 0x80` (`read_packet`). -/
def SENT_GE_GENERIC_EVENT : Nat := GE_GENERIC_EVENT ||| 0x80

/-- `Read::read_exact` on a byte stream modelled as a list: consume exactly `n`
bytes, failing (I/O error `UnexpectedEof`) when fewer are available. -/
def read_exact (n : Nat) (stream : List Nat) : Option (List Nat × List Nat) :=
  if n ≤ stream.length then some (stream.take n, stream.drop n) else none

/-- The `extra_length` computation of `read_packet` (`rust_connection/mod.rs`):
`match buffer[0] { REPLY | GE_GENERIC_EVENT | SENT_GE_GENERIC_EVENT =>
4 * u32::from_ne_bytes([buffer[4], buffer[5], buffer[6], buffer[7]]), _ => 0 }`.
The multiplication `4 * _` is performed in `u32`, hence the reduction modulo
`2 ^ 32` (release-mode wrapping semantics). -/
def packetExtraLength (buffer : List Nat) : Nat :=
  let b0 := buffer.getD 0 0
  if b0 = REPLY ∨ b0 = GE_GENERIC_EVENT ∨ b0 = SENT_GE_GENERIC_EVENT then
    (4 * u32_of_ne_bytes (buffer.getD 4 0) (buffer.getD 5 0)
      (buffer.getD 6 0) (buffer.getD 7 0)) % 2 ^ 32
  else 0

/-- `read_packet` (`rust_connection/mod.rs`): read the fixed 32-byte header,
compute the tail length from byte 0 and the length field at bytes 4..7, then
read the tail into the resized buffer. Returns the packet and the rest of the
stream, or `none` on a short read (the propagated I/O error). -/
def read_packet (stream : List Nat) : Option (List Nat × List Nat) :=
  match read_exact 32 stream with
  | none => none
  | some (buffer, rest) =>
    let extra_length := packetExtraLength buffer
    match read_exact extra_length rest with
    | none => none
    | some (tail, rest2) => some (buffer ++ tail, rest2)

theorem read_exact_eq_some {n : Nat} {s pre post : List Nat}
    (h : read_exact n s = some (pre, post)) :
    pre = s.take n ∧ post = s.drop n ∧ n ≤ s.length := by
  unfold read_exact at h
  split at h
  · cases h; exact ⟨rfl, rfl, by assumption⟩
  · cases h

theorem read_exact_eq_none {n : Nat} {s : List Nat}
    (h : read_exact n s = none) : s.length < n := by
  unfold read_exact at h
  split at h
  · cases h
  · omega

theorem read_packet_none_iff (stream : List Nat) :
    read_packet stream = none ↔
      stream.length < 32 + packetExtraLength (stream.take 32) := by
  unfold read_packet
  split
  next h32 =>
    have := read_exact_eq_none h32
    simp only [true_iff]
    omega
  next buffer rest h32 =>
    obtain ⟨hb, hr, hlen⟩ := read_exact_eq_some h32
    subst hb; subst hr
    dsimp only
    split
    next hxtra =>
      have := read_exact_eq_none hxtra
      rw [List.length_drop] at this
      simp only [true_iff]
      omega
    next tail rest2 hxtra =>
      obtain ⟨ht, hr2, hlen2⟩ := read_exact_eq_some hxtra
      rw [List.length_drop] at hlen2
      simp only [reduceCtorEq, false_iff, not_lt]
      omega

theorem read_packet_some (stream buf rest : List Nat)
    (h : read_packet stream = some (buf, rest)) :
    buf = stream.take (32 + packetExtraLength (stream.take 32)) ∧
      rest = stream.drop (32 + packetExtraLength (stream.take 32)) ∧
      buf.length = 32 + packetExtraLength (stream.take 32) := by
  unfold read_packet at h
  split at h
  next => cases h
  next buffer r h32 =>
    obtain ⟨hb, hr, hlen⟩ := read_exact_eq_some h32
    subst hb; subst hr
    dsimp only at h
    split at h
    next => cases h
    next tail rest2 hxtra =>
      obtain ⟨ht, hr2, hlen2⟩ := read_exact_eq_some hxtra
      rw [List.length_drop] at hlen2
      cases h
      subst ht; subst hr2
      refine ⟨?_, ?_, ?_⟩
      · rw [List.take_add]
      · rw [List.drop_drop, Nat.add_comm]
      · simp only [List.length_append, List.length_take, List.length_drop]
        omega

theorem getD_take_of_lt (l : List Nat) (n i : Nat) (h : i < n) :
    (l.take n).getD i 0 = l.getD i 0 := by
  simp [List.getD_eq_getElem?_getD, List.getElem?_take, h]

/-- The tail length of a packet, written in terms of the original stream's
bytes: `(4 * L) mod 2 ^ 32` for replies and (possibly forwarded) generic
events, `0` otherwise, `L` being the 32-bit value at bytes 4..7. -/
def expectedTailLength (stream : List Nat) : Nat :=
  if stream.getD 0 0 = 1 ∨ stream.getD 0 0 = 0x23 ∨ stream.getD 0 0 = 0xa3 then
    4 * u32_of_ne_bytes (stream.getD 4 0) (stream.getD 5 0) (stream.getD 6 0)
      (stream.getD 7 0) % 2 ^ 32
  else 0

theorem packetExtraLength_take (stream : List Nat) :
    packetExtraLength (stream.take 32) = expectedTailLength stream := by
  unfold packetExtraLength expectedTailLength
  rw [getD_take_of_lt stream 32 0 (by omega), getD_take_of_lt stream 32 4 (by omega),
    getD_take_of_lt stream 32 5 (by omega), getD_take_of_lt stream 32 6 (by omega),
    getD_take_of_lt stream 32 7 (by omega)]
  rfl

/-- C2 (amended): `read_packet` reads a 32-byte header and returns a buffer of
total length `32 + ((4 * L) mod 2 ^ 32)` when byte 0 of the header is `1`
(reply), `0x23` (generic event) or `0xa3` (SendEvent-forwarded generic event),
where `L` is the unsigned 32-bit value at bytes 4..7 of the header (the code
multiplies by 4 in `u32`, so the tail length wraps modulo `2 ^ 32`); for every
other value of byte 0 it returns exactly the 32 header bytes, and any short
read is propagated as a failure. -/
theorem read_packet_framing (stream : List Nat) :
    (read_packet stream = none ↔ stream.length < 32 + expectedTailLength stream) ∧
    ∀ buf rest, read_packet stream = some (buf, rest) →
      buf = stream.take (32 + expectedTailLength stream) ∧
      rest = stream.drop (32 + expectedTailLength stream) ∧
      buf.length = 32 + expectedTailLength stream := by
  constructor
  · rw [read_packet_none_iff, packetExtraLength_take]
  · intro buf rest h
    have := read_packet_some stream buf rest h
    rwa [packetExtraLength_take] at this

/-- Witness for `read_packet_framing`: on a concrete 33-byte stream whose head
is a key-press-style event packet (byte 0 = 2), the packet is exactly the 32
header bytes and one byte of the stream remains. -/
theorem read_packet_framing_witness :
    read_packet (List.replicate 32 2 ++ [7]) = some (List.replicate 32 2, [7]) ∧
      expectedTailLength (List.replicate 32 2 ++ [7]) = 0 := by
  refine ⟨?_, by decide⟩
  rcases hr : read_packet (List.replicate 32 2 ++ [7]) with _ | ⟨buf, rest⟩
  · exact absurd ((read_packet_framing _).1.mp hr) (by decide)
  · have h2 := (read_packet_framing _).2 buf rest hr
    rw [h2.1, h2.2.1]
    decide

/-- C2 counterexample: the claim predicts that a reply header whose length
field is `0x40000000` announces a tail of `4 * 0x40000000` bytes, so on a
32-byte stream `read_packet` would fail with a short read; in fact the `u32`
multiplication wraps to `0` and `read_packet` succeeds, returning only the 32
header bytes. -/
theorem read_packet_length_wraps :
    read_packet ([1, 0, 0, 0, 0, 0, 0, 64] ++ List.replicate 24 0) =
      some ([1, 0, 0, 0, 0, 0, 0, 64] ++ List.replicate 24 0, []) ∧
    u32_of_ne_bytes 0 0 0 64 = 0x40000000 ∧
    ([1, 0, 0, 0, 0, 0, 0, 64] ++ (List.replicate 24 0 : List Nat)).length ≠
      32 + 4 * 0x40000000 := by
  refine ⟨by decide, by decide, by decide⟩

/-- `ParseError` (`errors.rs`, external to the sources under consideration;
only the variant used by `x11_utils.rs` is modelled). -/
inductive ParseError
  | ParseError
deriving DecidableEq

/-- `Event::response_type` (`x11_utils.rs`): byte 0 of the packet masked with
`0x7f`; the top bit only records whether the packet was forwarded via
`SendEvent`. -/
def response_type (bytes : List Nat) : Nat := bytes.getD 0 0 &&& 0x7f

/-- `GenericEvent::new` (`x11_utils.rs`): validate that a buffer is a whole
packet. Buffers shorter than the 32-byte header are rejected; replies and
generic events must have total length `32 + 4 * length_field`, everything else
exactly 32 bytes. The additions and the multiplication by 4 happen in the
64-bit `usize` (the `u32` length field always fits in `usize`, so the
`try_into` in the code cannot fail). On success the buffer itself is the
event. -/
def genericEventNew (value : List Nat) : Except ParseError (List Nat) :=
  if value.length < 32 then .error .ParseError
  else
    let length_field := u32_of_ne_bytes (value.getD 4 0) (value.getD 5 0)
      (value.getD 6 0) (value.getD 7 0)
    let actual_length := value.length
    let expected_length :=
      if response_type value = GE_GENERIC_EVENT ∨ response_type value = REPLY then
        (32 + 4 * length_field) % 2 ^ usizeBits
      else 32
    if actual_length ≠ expected_length then .error .ParseError
    else .ok value

/-- `TryFrom<GenericEvent> for GenericError` (`x11_utils.rs`): an event
converts to an error exactly when its response type is 0. -/
def genericErrorTryFrom (event : List Nat) : Except ParseError (List Nat) :=
  if response_type event ≠ 0 then .error .ParseError else .ok event

/-- `GenericError::new` (`x11_utils.rs`): `GenericEvent::new(value)?.try_into()`. -/
def genericErrorNew (value : List Nat) : Except ParseError (List Nat) :=
  match genericEventNew value with
  | .error err => .error err
  | .ok event => genericErrorTryFrom event

theorem getD_lt_256 {l : List Nat} (hb : ∀ b ∈ l, b < 256) (i : Nat) :
    l.getD i 0 < 256 := by
  rw [List.getD_eq_getElem?_getD]
  rcases h : l[i]? with _ | x
  · simp
  · simpa using hb x (List.getElem?_mem h)

theorem u32_of_ne_bytes_lt {b0 b1 b2 b3 : Nat} (h0 : b0 < 256) (h1 : b1 < 256)
    (h2 : b2 < 256) (h3 : b3 < 256) : u32_of_ne_bytes b0 b1 b2 b3 < 2 ^ 32 := by
  unfold u32_of_ne_bytes
  omega

/-- The packet length mandated by the inbound wire format: `32 + 4 *
length_field` for replies and generic events (response type 1 or 0x23),
exactly 32 bytes otherwise. -/
def expectedPacketLength (value : List Nat) : Nat :=
  if response_type value = GE_GENERIC_EVENT ∨ response_type value = REPLY then
    32 + 4 * u32_of_ne_bytes (value.getD 4 0) (value.getD 5 0)
      (value.getD 6 0) (value.getD 7 0)
  else 32

theorem genericEventNew_eq (value : List Nat) (hb : ∀ b ∈ value, b < 256) :
    genericEventNew value =
      if value.length < 32 then .error .ParseError
      else if value.length ≠ expectedPacketLength value then .error .ParseError
      else .ok value := by
  have hL := u32_of_ne_bytes_lt (getD_lt_256 hb 4) (getD_lt_256 hb 5)
    (getD_lt_256 hb 6) (getD_lt_256 hb 7)
  have h32 : (2 : Nat) ^ 32 = 4294967296 := by norm_num
  have h64 : (2 : Nat) ^ usizeBits = 18446744073709551616 := by norm_num [usizeBits]
  have hmod : (32 + 4 * u32_of_ne_bytes (value.getD 4 0) (value.getD 5 0)
      (value.getD 6 0) (value.getD 7 0)) % 2 ^ usizeBits
      = 32 + 4 * u32_of_ne_bytes (value.getD 4 0) (value.getD 5 0)
        (value.getD 6 0) (value.getD 7 0) := by
    apply Nat.mod_eq_of_lt
    omega
  unfold genericEventNew expectedPacketLength
  by_cases h1 : value.length < 32
  · rw [if_pos h1, if_pos h1]
  · rw [if_neg h1, if_neg h1]
    dsimp only
    rw [hmod]

theorem genericEventNew_ok (value ev : List Nat) (hb : ∀ b ∈ value, b < 256)
    (h : genericEventNew value = .ok ev) : ev = value := by
  rw [genericEventNew_eq value hb] at h
  by_cases h1 : value.length < 32
  · simp [h1] at h
  · by_cases h2 : value.length ≠ expectedPacketLength value
    · simp [h1, h2] at h
    · simp [h1, h2] at h
      exact h.symm

theorem genericEventNew_ok_iff (value : List Nat) (hb : ∀ b ∈ value, b < 256) :
    genericEventNew value = .ok value ↔
      32 ≤ value.length ∧ value.length = expectedPacketLength value := by
  rw [genericEventNew_eq value hb]
  by_cases h1 : value.length < 32
  · rw [if_pos h1]
    simp only [reduceCtorEq, false_iff]
    rintro ⟨hc, -⟩
    omega
  · rw [if_neg h1]
    by_cases h2 : value.length ≠ expectedPacketLength value
    · rw [if_pos h2]
      simp only [reduceCtorEq, false_iff]
      rintro ⟨-, hc⟩
      exact h2 hc
    · rw [if_neg h2]
      push_neg at h2
      constructor
      · intro _
        exact ⟨by omega, h2⟩
      · intro _
        rfl

theorem genericErrorNew_ok_iff (value : List Nat) (hb : ∀ b ∈ value, b < 256) :
    genericErrorNew value = .ok value ↔
      genericEventNew value = .ok value ∧ response_type value = 0 := by
  unfold genericErrorNew genericErrorTryFrom
  rcases hgee : genericEventNew value with err | ev
  · simp
  · have hev := genericEventNew_ok value ev hb hgee
    subst ev
    dsimp only
    by_cases h0 : response_type value ≠ 0
    · rw [if_pos h0]
      simp only [reduceCtorEq, false_iff, not_and]
      intro _
      exact h0
    · rw [if_neg h0]
      push_neg at h0
      simp [h0]

/-- C5: `GenericEvent::new(b)` succeeds exactly when `b` has at least 32 bytes
and its total length equals `32 + 4 * length_field` (the 32-bit value at bytes
4..7) when byte 0 masked with `0x7f` is 0x23 (generic event) or 1 (reply), and
exactly 32 otherwise; `GenericError::new(b)` succeeds exactly when
additionally the masked byte 0 is 0, so every successfully constructed error
packet is exactly 32 bytes long. -/
theorem generic_packet_validation (value : List Nat) (hb : ∀ b ∈ value, b < 256) :
    (genericEventNew value = .ok value ↔
      32 ≤ value.length ∧ value.length = expectedPacketLength value) ∧
    (genericErrorNew value = .ok value ↔
      32 ≤ value.length ∧ value.length = expectedPacketLength value ∧
        response_type value = 0) ∧
    (∀ e, genericErrorNew value = .ok e → e = value ∧ value.length = 32) := by
  refine ⟨genericEventNew_ok_iff value hb, ?_, ?_⟩
  · rw [genericErrorNew_ok_iff value hb, genericEventNew_ok_iff value hb]
    constructor
    · rintro ⟨⟨a, b⟩, c⟩
      exact ⟨a, b, c⟩
    · rintro ⟨a, b, c⟩
      exact ⟨⟨a, b⟩, c⟩
  · intro e he
    unfold genericErrorNew at he
    split at he
    · cases he
    next ev heq =>
      have hev := genericEventNew_ok value ev hb heq
      subst ev
      unfold genericErrorTryFrom at he
      by_cases h0 : response_type value ≠ 0
      · rw [if_pos h0] at he
        cases he
      · rw [if_neg h0] at he
        push_neg at h0
        cases he
        refine ⟨rfl, ?_⟩
        have hlen := ((genericEventNew_ok_iff value hb).mp heq).2
        rw [hlen]
        unfold expectedPacketLength GE_GENERIC_EVENT REPLY
        rw [h0]
        norm_num

/-- Witness for `generic_packet_validation`: the concrete 32-byte error packet
`[0, 150, 0, ...]` (response type 0) is accepted by `GenericError::new`. -/
theorem generic_packet_validation_witness :
    genericErrorNew (0 :: 150 :: List.replicate 30 0) =
      .ok (0 :: 150 :: List.replicate 30 0) :=
  ((generic_packet_validation (0 :: 150 :: List.replicate 30 0)
    (by decide)).2.1).mpr (by decide)

/-- Modelled from the spec: the generated constant
`xproto::KEYMAP_NOTIFY_EVENT` (the generated protocol code is not part of the
sources under consideration); the spec fixes keymap notify at event code 11. -/
def KEYMAP_NOTIFY_EVENT : Nat := 11

/-- `Event::raw_sequence_number` (`x11_utils.rs`): `None` for keymap-notify
events, otherwise the 16-bit value at bytes 2..3 in native order. -/
def raw_sequence_number (bytes : List Nat) : Option Nat :=
  if response_type bytes = KEYMAP_NOTIFY_EVENT then none
  else some (u16_of_ne_bytes (bytes.getD 2 0) (bytes.getD 3 0))

/-- C7: `raw_sequence_number` returns `none` exactly when the packet's
response type (byte 0 masked with `0x7f`) is the keymap-notify event code 11,
and otherwise returns `some` of the 16-bit value stored at bytes 2..3. -/
theorem raw_sequence_number_spec (bytes : List Nat) :
    (raw_sequence_number bytes = none ↔ response_type bytes = 11) ∧
    (response_type bytes ≠ 11 →
      raw_sequence_number bytes =
        some (u16_of_ne_bytes (bytes.getD 2 0) (bytes.getD 3 0))) := by
  unfold raw_sequence_number KEYMAP_NOTIFY_EVENT
  by_cases h : response_type bytes = 11
  · simp [h]
  · simp [h]

/-- Witness for `raw_sequence_number_spec`: a key-press packet (byte 0 = 2)
with sequence bytes `[0x34, 0x12]` yields sequence `0x1234`, and a
keymap-notify packet (byte 0 = 11) yields no sequence number. -/
theorem raw_sequence_number_witness :
    raw_sequence_number (2 :: 0 :: 0x34 :: 0x12 :: List.replicate 28 0) =
      some 0x1234 ∧
    raw_sequence_number (11 :: List.replicate 31 0) = none := by
  constructor
  · rw [(raw_sequence_number_spec _).2 (by decide)]
    decide
  · exact (raw_sequence_number_spec _).1.mpr (by decide)

/-- `MaxRequestBytes` (`rust_connection/mod.rs`): the three-state cache for
the negotiated maximum request length. -/
inductive MaxRequestBytes
  | Unknown
  | Requested (seq : Option Nat)
  | Known (bytes : Nat)
deriving DecidableEq

/-- `prefetch_maximum_request_bytes_impl` (`rust_connection/mod.rs`): when the
cache is `Unknown`, send the `BigRequests::Enable` query and move to
`Requested`; `sendResult` is the sequence number that sending produced, or
`none` when sending failed (the outcome of `self.bigreq_enable()`, which is
environment input here). Any other state is left unchanged. -/
def prefetch_maximum_request_bytes_impl (sendResult : Option Nat) :
    MaxRequestBytes → MaxRequestBytes
  | .Unknown => .Requested sendResult
  | st => st

/-- `maximum_request_bytes` (`rust_connection/mod.rs`). `reply seq` models
`Cookie::new(self, seq).reply().map(|r| r.maximum_request_length).ok()`: the
`maximum_request_length` field (a `u32`, counted in 4-byte words) of the
big-requests reply for sequence `seq`, or `none` when getting the reply
failed; `setupMaximumRequestLength` is `self.setup.maximum_request_length`
(a `u16`) converted `.into()` a `u32`. The `try_into().unwrap_or(usize::MAX)`
conversion and the `usize` multiplication `length * 4` are modelled
explicitly. Returns the result and the new cache state. The `Unknown` arm is
the code's `unreachable!`: dead because the prefetch never leaves `Unknown`. -/
def maximum_request_bytes (sendResult : Option Nat) (reply : Nat → Option Nat)
    (setupMaximumRequestLength : Nat) (st : MaxRequestBytes) :
    Nat × MaxRequestBytes :=
  match prefetch_maximum_request_bytes_impl sendResult st with
  | .Unknown => (0, .Unknown)
  | .Requested seqno =>
    let length := (seqno.bind reply).getD setupMaximumRequestLength
    let length := if length < 2 ^ usizeBits then length else usizeMax
    let length := length * 4 % 2 ^ usizeBits
    (length, .Known length)
  | .Known length => (length, .Known length)

/-- C1: in cache state `Requested s`, `maximum_request_bytes` takes the length
in 4-byte words (the reply's `maximum_request_length` when `s = some seq` and
the reply is obtained, otherwise the setup record's `maximum_request_length`),
multiplies it by 4, caps the product at the platform word-size maximum
`usize::MAX`, stores the result as `Known` and returns it; every subsequent
call returns the same stored value. -/
theorem maximum_request_bytes_requested (sendResult : Option Nat)
    (reply : Nat → Option Nat) (setupMax : Nat) (s : Option Nat)
    (hreply : ∀ n v, reply n = some v → v < 2 ^ 32) (hsetup : setupMax < 2 ^ 32) :
    maximum_request_bytes sendResult reply setupMax (.Requested s) =
      (min (4 * ((s.bind reply).getD setupMax)) usizeMax,
        .Known (min (4 * ((s.bind reply).getD setupMax)) usizeMax)) ∧
    ∀ sr' r' m' n, maximum_request_bytes sr' r' m' (.Known n) = (n, .Known n) := by
  have e32 : (2 : Nat) ^ 32 = 4294967296 := by norm_num
  have e64 : (2 : Nat) ^ usizeBits = 18446744073709551616 := by norm_num [usizeBits]
  have hL : (s.bind reply).getD setupMax < 2 ^ 32 := by
    rcases s with _ | n
    · simpa using hsetup
    · rcases h : reply n with _ | v
      · simpa [h] using hsetup
      · simp only [Option.some_bind, h, Option.getD_some]
        exact hreply n v h
  rw [e32] at hL
  have key : (if (s.bind reply).getD setupMax < 2 ^ usizeBits
        then (s.bind reply).getD setupMax else usizeMax) * 4 % 2 ^ usizeBits
      = min (4 * ((s.bind reply).getD setupMax)) usizeMax := by
    rw [if_pos (by rw [e64]; omega)]
    rw [Nat.mod_eq_of_lt (by rw [e64]; omega)]
    unfold usizeMax
    rw [e64]
    omega
  constructor
  · unfold maximum_request_bytes prefetch_maximum_request_bytes_impl
    dsimp only
    rw [key]
  · intro sr' r' m' n
    rfl

/-- Witness for `maximum_request_bytes_requested`: with the big-requests reply
announcing `0x40000000` words for sequence 7, the first query returns
`0x100000000` bytes and caches it, and a later call on the `Known` state
returns the cached value. -/
theorem maximum_request_bytes_requested_witness :
    maximum_request_bytes none (fun n => if n = 7 then some 0x40000000 else none)
        0x4000 (.Requested (some 7)) = (0x100000000, .Known 0x100000000) ∧
      maximum_request_bytes none (fun _ => none) 0x4000 (.Known 0x100000000) =
        (0x100000000, .Known 0x100000000) := by
  have h := maximum_request_bytes_requested none
    (fun n => if n = 7 then some 0x40000000 else none) 0x4000 (some 7)
    (by
      intro n v hv
      dsimp only at hv
      by_cases hn : n = 7
      · rw [if_pos hn] at hv
        cases hv
        norm_num
      · rw [if_neg hn] at hv
        cases hv)
    (by norm_num)
  refine ⟨?_, h.2 none (fun _ => none) 0x4000 0x100000000⟩
  rw [h.1]
  decide

/-- The progress order on cache states: `Unknown` before `Requested` before
`Known`. -/
def MaxRequestBytes.rank : MaxRequestBytes → Nat
  | .Unknown => 0
  | .Requested _ => 1
  | .Known _ => 2

/-- C9: the cache state only advances Unknown → Requested → Known and never
moves backwards: the prefetch changes the state only when it is `Unknown`
(so prefetching is idempotent — a second prefetch is a no-op), a query never
lowers the state, and once the state is `Known n`, every later
`maximum_request_bytes` call returns `n` and leaves the state unchanged. -/
theorem max_request_bytes_cache_monotone :
    (∀ sr, prefetch_maximum_request_bytes_impl sr .Unknown = .Requested sr) ∧
    (∀ sr s, prefetch_maximum_request_bytes_impl sr (.Requested s) =
      .Requested s) ∧
    (∀ sr n, prefetch_maximum_request_bytes_impl sr (.Known n) = .Known n) ∧
    (∀ sr sr' st, prefetch_maximum_request_bytes_impl sr'
        (prefetch_maximum_request_bytes_impl sr st) =
      prefetch_maximum_request_bytes_impl sr st) ∧
    (∀ sr st, st.rank ≤ (prefetch_maximum_request_bytes_impl sr st).rank) ∧
    (∀ sr reply m st, st.rank ≤ (maximum_request_bytes sr reply m st).2.rank) ∧
    (∀ sr reply m n, maximum_request_bytes sr reply m (.Known n) =
      (n, .Known n)) := by
  refine ⟨fun sr => rfl, fun sr s => rfl, fun sr n => rfl, ?_, ?_, ?_,
    fun sr reply m n => rfl⟩
  · intro sr sr' st
    cases st <;> rfl
  · intro sr st
    cases st <;> simp [prefetch_maximum_request_bytes_impl, MaxRequestBytes.rank]
  · intro sr reply m st
    cases st <;>
      simp [maximum_request_bytes, prefetch_maximum_request_bytes_impl,
        MaxRequestBytes.rank]

/-- `RequestKind` (`connection.rs`, declarations only): whether the server
answers the request with a reply. -/
inductive RequestKind
  | HasResponse
  | IsVoid
deriving DecidableEq

/-- `ConnectionError` (`errors.rs`, declarations only; the variants reachable
from the code under consideration). -/
inductive ConnectionError
  | UnknownError
  | FDPassingFailed
  | MaximumRequestLengthExceeded
  | IoError
  | ParseFailed
deriving DecidableEq

/-- Modelled from the spec: the demultiplexer state behind the `inner` lock
(`rust_connection/inner.rs` is not part of the sources under consideration).
Request records follow the spec's data model: 64-bit sequence, expected-reply
kind, and the optionally received reply/error buffer. `lastSeen` is the
highest 64-bit sequence the server has acknowledged, `eventQueue` the FIFO of
events with their sequence numbers, `writeBuffer` the buffered writer's
unflushed bytes and `sent` the bytes already flushed to the transport. -/
structure ConnectionInner where
  nextSequence : Nat
  pending : List (Nat × RequestKind × Option (List Nat))
  eventQueue : List (List Nat × Nat)
  lastSeen : Nat
  writeBuffer : List Nat
  sent : List Nat
deriving DecidableEq

/-- Modelled from the spec: `ConnectionInner::send_request` — "Atomically take
`next_sequence`, increment, bind to a new request record tagged with `kind`,
insert into the pending table, write bytes to the buffered sink." The write
into the in-memory buffered sink is modelled as always succeeding. -/
def ConnectionInner.send_request (inner : ConnectionInner)
    (bufs : List (List Nat)) (kind : RequestKind) : Nat × ConnectionInner :=
  (inner.nextSequence,
    { inner with
      nextSequence := inner.nextSequence + 1
      pending := inner.pending ++ [(inner.nextSequence, kind, none)]
      writeBuffer := inner.writeBuffer ++ bufs.flatten })

/-- `RustConnection::send_request` (`rust_connection/mod.rs`): refuse any
non-empty descriptor list with `FDPassingFailed` before touching the inner
state, otherwise delegate to the inner sender. Returns the call's result
together with the connection state, unchanged on failure. -/
def send_request (inner : ConnectionInner) (bufs : List (List Nat))
    (fds : List Nat) (kind : RequestKind) :
    Except ConnectionError Nat × ConnectionInner :=
  if !fds.isEmpty then (.error .FDPassingFailed, inner)
  else
    let r := inner.send_request bufs kind
    (.ok r.1, r.2)

/-- Modelled from the spec: write the 16-bit length-in-words into bytes 2..3
of the request's first 4-byte word (the small request form). -/
def setSmallLength (bufs : List (List Nat)) (words : Nat) : List (List Nat) :=
  match bufs with
  | [] => []
  | b :: rest => ((b.set 2 (words % 256)).set 3 (words / 256 % 256)) :: rest

/-- Modelled from the spec: the big-request form — the 16-bit length is set to
0 and a 32-bit extended length is inserted immediately after the opcode
word. -/
def insertExtendedLength (bufs : List (List Nat)) (words : Nat) :
    List (List Nat) :=
  match bufs with
  | [] => []
  | b :: rest =>
    (((b.set 2 0).set 3 0).take 4 ++
        [words % 256, words / 256 % 256, words / 65536 % 256,
          words / 16777216 % 256] ++
      ((b.set 2 0).set 3 0).drop 4) :: rest

/-- Modelled from the spec: `compute_length_field` (`connection.rs`, not part
of the sources under consideration). "If the total request length in words is
≤ 65535 and ≤ the cached maximum-request-bytes / 4, write the small form.
Otherwise, if big-requests has been negotiated, emit the extended form ...
the request total (in words) must be ≤ the server-advertised max. Otherwise
fail with 'request too long'." `maxRequestBytes` and `bigRequestsEnabled`
summarize the negotiated state the computation consults. -/
def compute_length_field (maxRequestBytes : Nat) (bigRequestsEnabled : Bool)
    (bufs : List (List Nat)) : Except ConnectionError (List (List Nat)) :=
  let words := (bufs.map List.length).sum / 4
  if words ≤ 65535 ∧ words ≤ maxRequestBytes / 4 then
    .ok (setSmallLength bufs words)
  else if bigRequestsEnabled then
    if words + 1 ≤ maxRequestBytes / 4 then
      .ok (insertExtendedLength bufs (words + 1))
    else .error .MaximumRequestLengthExceeded
  else .error .MaximumRequestLengthExceeded

/-- `send_request_with_reply` (`rust_connection/mod.rs`): fix up the length
field, then send expecting a response. -/
def send_request_with_reply (maxRequestBytes : Nat) (bigRequestsEnabled : Bool)
    (inner : ConnectionInner) (bufs : List (List Nat)) (fds : List Nat) :
    Except ConnectionError Nat × ConnectionInner :=
  match compute_length_field maxRequestBytes bigRequestsEnabled bufs with
  | .error e => (.error e, inner)
  | .ok bufs2 => send_request inner bufs2 fds .HasResponse

/-- `send_request_without_reply` (`rust_connection/mod.rs`): fix up the length
field, then send a void request. -/
def send_request_without_reply (maxRequestBytes : Nat)
    (bigRequestsEnabled : Bool) (inner : ConnectionInner)
    (bufs : List (List Nat)) (fds : List Nat) :
    Except ConnectionError Nat × ConnectionInner :=
  match compute_length_field maxRequestBytes bigRequestsEnabled bufs with
  | .error e => (.error e, inner)
  | .ok bufs2 => send_request inner bufs2 fds .IsVoid

/-- `send_request_with_reply_with_fds` (`rust_connection/mod.rs`): computes
the length field, then unconditionally fails with `FDPassingFailed`. -/
def send_request_with_reply_with_fds (maxRequestBytes : Nat)
    (bigRequestsEnabled : Bool) (inner : ConnectionInner)
    (bufs : List (List Nat)) (fds : List Nat) :
    Except ConnectionError Nat × ConnectionInner :=
  match compute_length_field maxRequestBytes bigRequestsEnabled bufs with
  | .error e => (.error e, inner)
  | .ok _ => (.error .FDPassingFailed, inner)

/-- Equality of `Except` values is decidable when both components' is. -/
instance exceptDecEq {e a : Type} [DecidableEq e] [DecidableEq a] :
    DecidableEq (Except e a) := fun x y =>
  match x, y with
  | .ok v, .ok w =>
    if h : v = w then isTrue (by rw [h])
    else isFalse (fun he => by cases he; exact h rfl)
  | .error v, .error w =>
    if h : v = w then isTrue (by rw [h])
    else isFalse (fun he => by cases he; exact h rfl)
  | .ok _, .error _ => isFalse (fun he => by cases he)
  | .error _, .ok _ => isFalse (fun he => by cases he)

/-- C3 counterexample: with a request of 5 words against a 16-byte negotiated
maximum and big requests not negotiated, the length-field computation fails,
so `send_request_with_reply` with a non-empty descriptor list — and
`send_request_with_reply_with_fds` even with an empty one — fail with the
request-too-long error `MaximumRequestLengthExceeded` rather than with the
claimed `FDPassingFailed`. -/
theorem send_request_too_long_not_fd_error :
    (send_request_with_reply 16 false ⟨1, [], [], 0, [], []⟩
        [List.replicate 20 0] [3]).1 =
      .error .MaximumRequestLengthExceeded ∧
    (send_request_with_reply_with_fds 16 false ⟨1, [], [], 0, [], []⟩
        [List.replicate 20 0] []).1 =
      .error .MaximumRequestLengthExceeded ∧
    ((send_request_with_reply 16 false ⟨1, [], [], 0, [], []⟩
        [List.replicate 20 0] [3]).1 = .error .FDPassingFailed) = False := by
  refine ⟨by decide, by decide, by decide⟩

/-- C3 (amended): whenever the length-field computation accepts the request,
`send_request_with_reply(bufs, fds)` and `send_request_without_reply(bufs,
fds)` with a non-empty descriptor list fail with `FDPassingFailed` without
assigning a sequence number (the connection state is returned unchanged), and
`send_request_with_reply_with_fds` fails for every input — with
`FDPassingFailed` whenever the length-field computation accepts the request,
and with that computation's error otherwise. -/
theorem send_request_fd_passing (maxB : Nat) (bigreq : Bool)
    (inner : ConnectionInner) (bufs bufs2 : List (List Nat)) (fds : List Nat)
    (hok : compute_length_field maxB bigreq bufs = .ok bufs2)
    (hfds : fds ≠ []) :
    send_request_with_reply maxB bigreq inner bufs fds =
      (.error .FDPassingFailed, inner) ∧
    send_request_without_reply maxB bigreq inner bufs fds =
      (.error .FDPassingFailed, inner) ∧
    send_request_with_reply_with_fds maxB bigreq inner bufs fds =
      (.error .FDPassingFailed, inner) ∧
    ∀ mB bq inr bufs' fds' n,
      (send_request_with_reply_with_fds mB bq inr bufs' fds').1 ≠ .ok n := by
  have hne : fds.isEmpty = false := by
    cases fds
    · exact absurd rfl hfds
    · rfl
  refine ⟨?_, ?_, ?_, ?_⟩
  · unfold send_request_with_reply
    rw [hok]
    unfold send_request
    rw [hne]
    rfl
  · unfold send_request_without_reply
    rw [hok]
    unfold send_request
    rw [hne]
    rfl
  · unfold send_request_with_reply_with_fds
    rw [hok]
  · intro mB bq inr bufs' fds' n
    unfold send_request_with_reply_with_fds
    rcases hc : compute_length_field mB bq bufs' with e | b2 <;> simp

/-- Witness for `send_request_fd_passing`: a concrete one-word request whose
length computation succeeds, sent with descriptor list `[5]`, fails with
`FDPassingFailed` and leaves the connection state unchanged. -/
theorem send_request_fd_passing_witness :
    send_request_with_reply 65536 false ⟨1, [], [], 0, [], []⟩ [[43, 0, 1, 0]]
      [5] = (.error .FDPassingFailed, ⟨1, [], [], 0, [], []⟩) :=
  (send_request_fd_passing 65536 false ⟨1, [], [], 0, [], []⟩ [[43, 0, 1, 0]]
    [[43, 0, 1, 0]] [5] (by decide) (by decide)).1

/-- The observable outcome of a Rust function call: a returned value, a
returned error, or a panic (no return at all). -/
inductive FnResult (ε α : Type)
  | ok (a : α)
  | err (e : ε)
  | panics
deriving DecidableEq

/-- `ReplyError` (`errors.rs`, declarations only): either a connection error
or a typed X11 error packet received from the server. -/
inductive ReplyError
  | ConnError (e : ConnectionError)
  | X11Error (bytes : List Nat)
deriving DecidableEq

/-- `wait_for_reply_with_fds` (`rust_connection/mod.rs`): the body is a single
`unreachable!`, so the call panics for every sequence number and never
produces a value. -/
def wait_for_reply_with_fds (sequence : Nat) :
    FnResult ReplyError (List Nat × List Nat) :=
  .panics

/-- C10: `wait_for_reply_with_fds` unconditionally panics (its body is a
single `unreachable!`): for every sequence number it returns neither a
success nor an error value, so after the always-failing
`send_request_with_reply_with_fds` there is no defined way to wait for a
reply carrying descriptors. -/
theorem wait_for_reply_with_fds_panics (sequence : Nat) :
    wait_for_reply_with_fds sequence = .panics ∧
    (∀ r, wait_for_reply_with_fds sequence ≠ .ok r) ∧
    (∀ e, wait_for_reply_with_fds sequence ≠ .err e) := by
  refine ⟨rfl, ?_, ?_⟩
  · intro r h
    simp [wait_for_reply_with_fds] at h
  · intro e h
    simp [wait_for_reply_with_fds] at h

/-- Modelled from the spec: the demultiplexer's sequence extension — on an
incoming 16-bit sequence `s`, the extended value is the smallest 64-bit value
whose low 16 bits equal `s` and that is at least `lastSeen`. -/
def extendSequence (lastSeen s : Nat) : Nat :=
  if lastSeen % 65536 ≤ s then lastSeen - lastSeen % 65536 + s
  else lastSeen - lastSeen % 65536 + 65536 + s

/-- Modelled from the spec: store an arrived reply or error buffer in the
pending request record holding the given 64-bit sequence. -/
def storeReply (pending : List (Nat × RequestKind × Option (List Nat)))
    (seq : Nat) (packet : List Nat) :
    List (Nat × RequestKind × Option (List Nat)) :=
  pending.map fun r => if r.1 = seq then (r.1, r.2.1, some packet) else r

/-- Modelled from the spec: `ConnectionInner::enqueue_packet`
(`rust_connection/inner.rs`, not part of the sources under consideration) —
dispatch on byte 0: `0` → error, stored as the request's reply (errors fit in
the 32-byte header); `1` → reply, stored likewise; response type 11 (keymap
notify) → event without sequence, appended to the event queue with the last
known 64-bit sequence; any other value → event, appended with the extended
sequence. Errors, replies and sequenced events advance `lastSeen`. -/
def ConnectionInner.enqueue_packet (inner : ConnectionInner)
    (packet : List Nat) : ConnectionInner :=
  let b0 := packet.getD 0 0
  let short := u16_of_ne_bytes (packet.getD 2 0) (packet.getD 3 0)
  if b0 = 0 ∨ b0 = 1 then
    let seq := extendSequence inner.lastSeen short
    { inner with
      lastSeen := seq
      pending := storeReply inner.pending seq packet }
  else if b0 &&& 0x7f = 11 then
    { inner with eventQueue := inner.eventQueue ++ [(packet, inner.lastSeen)] }
  else
    let seq := extendSequence inner.lastSeen short
    { inner with
      lastSeen := seq
      eventQueue := inner.eventQueue ++ [(packet, seq)] }

/-- Look up the pending record for `seq`. -/
def findPending (pending : List (Nat × RequestKind × Option (List Nat)))
    (seq : Nat) : Option (RequestKind × Option (List Nat)) :=
  match pending.find? (fun r => r.1 = seq) with
  | none => none
  | some r => some r.2

/-- Remove the pending record for `seq` (the reply is observed by exactly one
waiter). -/
def removePending (pending : List (Nat × RequestKind × Option (List Nat)))
    (seq : Nat) : List (Nat × RequestKind × Option (List Nat)) :=
  pending.filter fun r => r.1 ≠ seq

/-- Modelled from the spec: `poll_for_reply_or_error(seq)` — `some buffer`
when a reply or error has arrived (consuming the record), `none` when the
caller should pull more packets. -/
def ConnectionInner.poll_for_reply_or_error (inner : ConnectionInner)
    (seq : Nat) : Option (List Nat) × ConnectionInner :=
  match findPending inner.pending seq with
  | some (_, some buf) =>
    (some buf, { inner with pending := removePending inner.pending seq })
  | _ => (none, inner)

/-- `PollReply` (`rust_connection/inner.rs`, declarations only). -/
inductive PollReply
  | TryAgain
  | NoReply
  | Reply (buf : List Nat)
deriving DecidableEq

/-- Modelled from the spec: `poll_for_reply(seq)` — three-state; an arrived
error (byte 0 = 0) is converted to `NoReply` (the caller wanted only a
reply), an arrived reply is returned, a record whose answer has not arrived
yet yields `TryAgain`, and a request that is no longer tracked yields
`NoReply`. -/
def ConnectionInner.poll_for_reply (inner : ConnectionInner) (seq : Nat) :
    PollReply × ConnectionInner :=
  match findPending inner.pending seq with
  | some (_, some buf) =>
    if buf.getD 0 0 = 0 then
      (.NoReply, { inner with pending := removePending inner.pending seq })
    else
      (.Reply buf, { inner with pending := removePending inner.pending seq })
  | some (_, none) => (.TryAgain, inner)
  | none => (.NoReply, inner)

/-- Modelled from the spec: `ConnectionInner::flush` — push the buffered
bytes to the transport. -/
def ConnectionInner.flush (inner : ConnectionInner) : ConnectionInner :=
  { inner with writeBuffer := [], sent := inner.sent ++ inner.writeBuffer }

/-- The result of `wait_for_reply_or_error` once the poll produced a buffer
(`rust_connection/mod.rs`): an error packet (byte 0 = 0) is decoded into a
typed error through `GenericError::new` (a decoding failure propagates as a
parse error), anything else is the reply. -/
def decodeReplyOrError (reply : List Nat) : Except ReplyError (List Nat) :=
  if reply.getD 0 0 = 0 then
    match genericErrorNew reply with
    | .ok e => .error (.X11Error e)
    | .error _ => .error (.ConnError .ParseFailed)
  else .ok reply

/-- The loop of `wait_for_reply_or_error` (`rust_connection/mod.rs`): poll;
on a hit return the decoded buffer; otherwise read and enqueue the next
packet (`read_packet_and_enqueue`) and retry. The inbound transport is
modelled as the list of framed packets the server sends; an exhausted stream
is the propagated I/O error of the blocking read. -/
def waitLoopROE (seq : Nat) : ConnectionInner → List (List Nat) →
    Except ReplyError (List Nat)
  | inner, [] =>
    match (inner.poll_for_reply_or_error seq).1 with
    | some reply => decodeReplyOrError reply
    | none => .error (.ConnError .IoError)
  | inner, p :: rest =>
    match (inner.poll_for_reply_or_error seq).1 with
    | some reply => decodeReplyOrError reply
    | none => waitLoopROE seq (inner.enqueue_packet p) rest

/-- The loop of `wait_for_reply` (`rust_connection/mod.rs`): poll the
three-state `poll_for_reply`; `NoReply` yields success with no buffer,
`TryAgain` reads and enqueues the next packet and retries. -/
def waitLoopR (seq : Nat) : ConnectionInner → List (List Nat) →
    Except ConnectionError (Option (List Nat))
  | inner, [] =>
    match (inner.poll_for_reply seq).1 with
    | .NoReply => .ok none
    | .Reply buf => .ok (some buf)
    | .TryAgain => .error .IoError
  | inner, p :: rest =>
    match (inner.poll_for_reply seq).1 with
    | .NoReply => .ok none
    | .Reply buf => .ok (some buf)
    | .TryAgain => waitLoopR seq (inner.enqueue_packet p) rest

/-- `wait_for_reply_or_error` (`rust_connection/mod.rs`): flush, then loop
polling and reading until the reply or error for `seq` arrives. -/
def wait_for_reply_or_error (seq : Nat) (inner : ConnectionInner)
    (stream : List (List Nat)) : Except ReplyError (List Nat) :=
  waitLoopROE seq inner.flush stream

/-- `wait_for_reply` (`rust_connection/mod.rs`): flush, then loop polling and
reading; errors are suppressed (`NoReply` becomes `Ok(None)`). -/
def wait_for_reply (seq : Nat) (inner : ConnectionInner)
    (stream : List (List Nat)) : Except ConnectionError (Option (List Nat)) :=
  waitLoopR seq inner.flush stream

/-- The buffer the server answered request `seq` with: the first reply or
error the waiting loop encounters, starting from the flushed state. -/
def firstAnswerLoop (seq : Nat) : ConnectionInner → List (List Nat) →
    Option (List Nat)
  | inner, [] => (inner.poll_for_reply_or_error seq).1
  | inner, p :: rest =>
    match (inner.poll_for_reply_or_error seq).1 with
    | some reply => some reply
    | none => firstAnswerLoop seq (inner.enqueue_packet p) rest

/-- The answer (reply or error packet) the waiting loops for `seq` will find,
starting like them from the flushed state. -/
def firstAnswer (seq : Nat) (inner : ConnectionInner)
    (stream : List (List Nat)) : Option (List Nat) :=
  firstAnswerLoop seq inner.flush stream




theorem findPending_some {pending : List (Nat × RequestKind × Option (List Nat))}
    {seq : Nat} {v : RequestKind × Option (List Nat)}
    (h : findPending pending seq = some v) :
    ∃ r ∈ pending, r.1 = seq ∧ r.2 = v := by
  unfold findPending at h
  rcases hf : pending.find? (fun r => decide (r.1 = seq)) with _ | r0 <;> rw [hf] at h
  · cases h
  · cases h
    refine ⟨r0, List.mem_of_find?_eq_some hf, ?_, rfl⟩
    have := List.find?_some hf
    simpa using this

theorem pollROE_some {st : ConnectionInner} {seq : Nat} {b : List Nat}
    (h : (st.poll_for_reply_or_error seq).1 = some b) :
    ∃ k, findPending st.pending seq = some (k, some b) := by
  unfold ConnectionInner.poll_for_reply_or_error at h
  rcases hf : findPending st.pending seq with _ | ⟨k, _ | buf⟩ <;> rw [hf] at h
  · cases h
  · cases h
  · dsimp only at h
    cases h
    exact ⟨k, rfl⟩

theorem polls_of_record_none {st : ConnectionInner} {seq : Nat}
    {k : RequestKind} (hf : findPending st.pending seq = some (k, none)) :
    (st.poll_for_reply_or_error seq).1 = none ∧
      (st.poll_for_reply seq).1 = .TryAgain := by
  unfold ConnectionInner.poll_for_reply_or_error ConnectionInner.poll_for_reply
  rw [hf]
  exact ⟨rfl, rfl⟩

theorem polls_of_no_record {st : ConnectionInner} {seq : Nat}
    (hf : findPending st.pending seq = none) :
    (st.poll_for_reply_or_error seq).1 = none ∧
      (st.poll_for_reply seq).1 = .NoReply := by
  unfold ConnectionInner.poll_for_reply_or_error ConnectionInner.poll_for_reply
  rw [hf]
  exact ⟨rfl, rfl⟩

theorem polls_of_record_some {st : ConnectionInner} {seq : Nat}
    {k : RequestKind} {buf : List Nat}
    (hf : findPending st.pending seq = some (k, some buf)) :
    (st.poll_for_reply_or_error seq).1 = some buf ∧
      (st.poll_for_reply seq).1 =
        (if buf.getD 0 0 = 0 then .NoReply else .Reply buf) := by
  unfold ConnectionInner.poll_for_reply_or_error ConnectionInner.poll_for_reply
  rw [hf]
  dsimp only
  refine ⟨rfl, ?_⟩
  split <;> rfl

/-- A well-formed inbound packet: if it is an error packet (byte 0 = 0) it is
accepted by `GenericError::new` — exactly what the `read_packet` framing
delivers for server errors (32 bytes, response type 0). -/
def ErrorWF (p : List Nat) : Prop :=
  p.getD 0 0 = 0 → genericErrorNew p = .ok p

/-- Every reply or error buffer stored in the pending table is well formed. -/
def PendingWF (st : ConnectionInner) : Prop :=
  ∀ s k buf, (s, k, some buf) ∈ st.pending → ErrorWF buf

theorem enqueue_packet_pending (st : ConnectionInner) (p : List Nat) :
    (st.enqueue_packet p).pending = st.pending ∨
    (st.enqueue_packet p).pending =
      storeReply st.pending
        (extendSequence st.lastSeen
          (u16_of_ne_bytes (p.getD 2 0) (p.getD 3 0))) p := by
  unfold ConnectionInner.enqueue_packet
  dsimp only
  by_cases h1 : p.getD 0 0 = 0 ∨ p.getD 0 0 = 1
  · rw [if_pos h1]
    exact Or.inr rfl
  · rw [if_neg h1]
    by_cases h2 : p.getD 0 0 &&& 0x7f = 11
    · rw [if_pos h2]
      exact Or.inl rfl
    · rw [if_neg h2]
      exact Or.inl rfl

theorem mem_storeReply {pending : List (Nat × RequestKind × Option (List Nat))}
    {seqX : Nat} {p : List Nat} {r : Nat × RequestKind × Option (List Nat)}
    (h : r ∈ storeReply pending seqX p) :
    (∃ r0 ∈ pending, r = r0) ∨ ∃ r0 ∈ pending, r = (r0.1, r0.2.1, some p) := by
  unfold storeReply at h
  rcases List.mem_map.mp h with ⟨r0, hr0, hmap⟩
  by_cases he : r0.1 = seqX
  · rw [if_pos he] at hmap
    exact Or.inr ⟨r0, hr0, hmap.symm⟩
  · rw [if_neg he] at hmap
    exact Or.inl ⟨r0, hr0, hmap.symm⟩

theorem pendingWF_enqueue {st : ConnectionInner} {p : List Nat}
    (hst : PendingWF st) (hp : ErrorWF p) :
    PendingWF (st.enqueue_packet p) := by
  intro s k buf hmem
  rcases enqueue_packet_pending st p with h | h <;> rw [h] at hmem
  · exact hst s k buf hmem
  · rcases mem_storeReply hmem with ⟨r0, hr0, he⟩ | ⟨r0, hr0, he⟩
    · rw [← he] at hr0
      exact hst s k buf hr0
    · have hb : buf = p := by
        have := congrArg (fun x => x.2.2) he
        simpa using this
      rw [hb]
      exact hp

theorem findPending_none_iff
    {pending : List (Nat × RequestKind × Option (List Nat))} {seq : Nat} :
    findPending pending seq = none ↔
      pending.find? (fun r => decide (r.1 = seq)) = none := by
  unfold findPending
  constructor
  · intro h
    rcases hf : pending.find? (fun r => decide (r.1 = seq)) with _ | r
    · exact hf
    · rw [hf] at h
      cases h
  · intro h
    rw [h]

theorem findPending_storeReply_none
    {pending : List (Nat × RequestKind × Option (List Nat))} {seq seqX : Nat}
    {p : List Nat} (h : findPending pending seq = none) :
    findPending (storeReply pending seqX p) seq = none := by
  rw [findPending_none_iff] at h ⊢
  rw [List.find?_eq_none] at h ⊢
  intro x hx
  rcases mem_storeReply hx with ⟨r0, hr0, he⟩ | ⟨r0, hr0, he⟩
  · rw [he]
    exact h r0 hr0
  · have := h r0 hr0
    rw [he]
    simpa using this

theorem enqueue_findPending_none {st : ConnectionInner} {p : List Nat}
    {seq : Nat} (h : findPending st.pending seq = none) :
    findPending (st.enqueue_packet p).pending seq = none := by
  rcases enqueue_packet_pending st p with he | he <;> rw [he]
  · exact h
  · exact findPending_storeReply_none h

theorem firstAnswerLoop_none (seq : Nat) (stream : List (List Nat)) :
    ∀ st : ConnectionInner, findPending st.pending seq = none →
      firstAnswerLoop seq st stream = none := by
  induction stream with
  | nil =>
    intro st h
    have := (polls_of_no_record h).1
    simpa [firstAnswerLoop] using this
  | cons p rest ih =>
    intro st h
    have hp := (polls_of_no_record h).1
    simp only [firstAnswerLoop]
    rw [hp]
    exact ih _ (enqueue_findPending_none h)

theorem waitLoops_found (seq : Nat) (stream : List (List Nat))
    (st : ConnectionInner) (hwf : PendingWF st) (b : List Nat)
    (hp : (st.poll_for_reply_or_error seq).1 = some b) :
    (b.getD 0 0 = 0 →
      waitLoopROE seq st stream = .error (.X11Error b) ∧
      waitLoopR seq st stream = .ok none) ∧
    (b.getD 0 0 ≠ 0 →
      waitLoopROE seq st stream = .ok b ∧
      waitLoopR seq st stream = .ok (some b)) := by
  rcases pollROE_some hp with ⟨k, hrec⟩
  have hview := polls_of_record_some hrec
  have hWFb : ErrorWF b := by
    rcases findPending_some hrec with ⟨r, hr, hkey, hv⟩
    have hr2 : r = (r.1, k, some b) := by
      rw [← hv]
    rw [hr2] at hr
    exact hwf r.1 k b hr
  have hROE : ∀ s2, waitLoopROE seq st s2 = decodeReplyOrError b := by
    intro s2
    cases s2 <;> (simp only [waitLoopROE]; rw [hp])
  have hR : ∀ s2, waitLoopR seq st s2 =
      (if b.getD 0 0 = 0 then Except.ok none else Except.ok (some b)) := by
    intro s2
    by_cases h0 : b.getD 0 0 = 0
    · rw [if_pos h0]
      have h2 : (st.poll_for_reply seq).1 = .NoReply := by
        rw [hview.2, if_pos h0]
      cases s2 <;> (simp only [waitLoopR]; rw [h2])
    · rw [if_neg h0]
      have h2 : (st.poll_for_reply seq).1 = .Reply b := by
        rw [hview.2, if_neg h0]
      cases s2 <;> (simp only [waitLoopR]; rw [h2])
  refine ⟨fun h0 => ⟨?_, ?_⟩, fun h0 => ⟨?_, ?_⟩⟩
  · rw [hROE]
    unfold decodeReplyOrError
    rw [if_pos h0, hWFb h0]
  · rw [hR, if_pos h0]
  · rw [hROE]
    unfold decodeReplyOrError
    rw [if_neg h0]
  · rw [hR, if_neg h0]

theorem waitLoops_correspondence (seq : Nat) (stream : List (List Nat)) :
    ∀ st : ConnectionInner, PendingWF st → (∀ p ∈ stream, ErrorWF p) →
      ∀ b, firstAnswerLoop seq st stream = some b →
        (b.getD 0 0 = 0 →
          waitLoopROE seq st stream = .error (.X11Error b) ∧
          waitLoopR seq st stream = .ok none) ∧
        (b.getD 0 0 ≠ 0 →
          waitLoopROE seq st stream = .ok b ∧
          waitLoopR seq st stream = .ok (some b)) := by
  induction stream with
  | nil =>
    intro st hwf _ b hfa
    simp only [firstAnswerLoop] at hfa
    exact waitLoops_found seq [] st hwf b hfa
  | cons p rest ih =>
    intro st hwf hstream b hfa
    simp only [firstAnswerLoop] at hfa
    rcases hp : (st.poll_for_reply_or_error seq).1 with _ | reply <;>
      rw [hp] at hfa <;> dsimp only at hfa
    · by_cases hrec : findPending st.pending seq = none
      · rw [firstAnswerLoop_none seq rest _ (enqueue_findPending_none hrec)]
          at hfa
        cases hfa
      · have hrecn : ∃ k, findPending st.pending seq = some (k, none) := by
          rcases hv : findPending st.pending seq with _ | ⟨k, _ | buf⟩
          · exact absurd hv hrec
          · exact ⟨k, rfl⟩
          · have h2 := (polls_of_record_some hv).1
            rw [hp] at h2
            cases h2
        rcases hrecn with ⟨k, hkn⟩
        have hta := (polls_of_record_none hkn).2
        have hmain := ih (st.enqueue_packet p)
          (pendingWF_enqueue hwf (hstream p (List.mem_cons_self p rest)))
          (fun q hq => hstream q (List.mem_cons_of_mem p hq)) b hfa
        refine ⟨fun h0 => ⟨?_, ?_⟩, fun h0 => ⟨?_, ?_⟩⟩
        · simp only [waitLoopROE]
          rw [hp]
          exact (hmain.1 h0).1
        · simp only [waitLoopR]
          rw [hta]
          exact (hmain.1 h0).2
        · simp only [waitLoopROE]
          rw [hp]
          exact (hmain.2 h0).1
        · simp only [waitLoopR]
          rw [hta]
          exact (hmain.2 h0).2
    · cases hfa
      exact waitLoops_found seq (p :: rest) st hwf _ hp

/-- C6: for every sequence whose request the server answered with an error
packet (byte 0 = 0), `wait_for_reply_or_error` flushes, loops until the
packet is available and returns that error decoded as a typed error result,
whereas `wait_for_reply` on the same sequence returns successfully with no
buffer; when the server answered with a reply, both return the reply
buffer. The answer is `firstAnswer`, the first reply-or-error buffer the
polling loop encounters for the sequence. -/
theorem wait_reply_error_correspondence (seq : Nat) (inner : ConnectionInner)
    (stream : List (List Nat)) (b : List Nat) (hwfp : PendingWF inner)
    (hwfs : ∀ p ∈ stream, ErrorWF p)
    (hans : firstAnswer seq inner stream = some b) :
    (b.getD 0 0 = 0 →
      wait_for_reply_or_error seq inner stream = .error (.X11Error b) ∧
      wait_for_reply seq inner stream = .ok none) ∧
    (b.getD 0 0 ≠ 0 →
      wait_for_reply_or_error seq inner stream = .ok b ∧
      wait_for_reply seq inner stream = .ok (some b)) :=
  waitLoops_correspondence seq stream inner.flush
    (fun s k buf h => hwfp s k buf h) hwfs b hans

/-- Witness for `wait_reply_error_correspondence`: request 1 is pending and
the server answers it with a 32-byte error packet; `wait_for_reply_or_error`
returns the typed error while `wait_for_reply` returns success with no
buffer. -/
theorem wait_reply_error_correspondence_witness :
    wait_for_reply_or_error 1 ⟨2, [(1, .HasResponse, none)], [], 0, [], []⟩
        [0 :: 150 :: 1 :: 0 :: List.replicate 28 0] =
      .error (.X11Error (0 :: 150 :: 1 :: 0 :: List.replicate 28 0)) ∧
    wait_for_reply 1 ⟨2, [(1, .HasResponse, none)], [], 0, [], []⟩
        [0 :: 150 :: 1 :: 0 :: List.replicate 28 0] = .ok none := by
  have h := wait_reply_error_correspondence 1
    ⟨2, [(1, .HasResponse, none)], [], 0, [], []⟩
    [0 :: 150 :: 1 :: 0 :: List.replicate 28 0]
    (0 :: 150 :: 1 :: 0 :: List.replicate 28 0)
    (by
      intro s k buf hm
      rw [List.mem_singleton] at hm
      simp at hm)
    (by
      intro p hp
      rw [List.mem_singleton] at hp
      subst hp
      intro h0
      decide)
    (by decide)
  exact h.1 (by decide)

/-- The places of `read_packet_and_enqueue` (`rust_connection/mod.rs`) a
thread can occupy, each determining the locks the thread holds. `idle`:
outside, holding nothing. `entered`: holds `inner`, at step 0.1 about to
try-lock `read`. `condWait`: parked on the condition variable (1.1), holding
nothing. `acquiredRead`: 0.1 succeeded, holds `inner` and `read` (before
2.1). `reading`: holds `read` only, blocked in the packet read (2.2).
`reacquiring`: holds `read`, the packet is read but not enqueued, waiting
for `inner` (2.3). `relocked`: holds both locks, packet still unenqueued
(2.4). `droppedRead`: `read` released after `inner` was reacquired, packet
still unenqueued (2.5). The enqueue, the condition broadcast and the return
(2.5–2.7) are one step back to `entered` (the caller loops holding
`inner`). -/
inductive PC
  | idle
  | entered
  | condWait
  | acquiredRead
  | reading
  | reacquiring
  | relocked
  | droppedRead
deriving DecidableEq

/-- Which places hold the `inner` lock. -/
def holdsInner : PC → Bool
  | .entered => true
  | .acquiredRead => true
  | .relocked => true
  | .droppedRead => true
  | _ => false

/-- Which places hold the `read` lock (the reader role). -/
def holdsRead : PC → Bool
  | .acquiredRead => true
  | .reading => true
  | .reacquiring => true
  | .relocked => true
  | _ => false

/-- Which places hold a packet that has been read but not yet enqueued. -/
def holdsUnenqueued : PC → Bool
  | .reacquiring => true
  | .relocked => true
  | .droppedRead => true
  | _ => false

/-- One step of the reader-rotation protocol, for an arbitrary number of
threads (`pcs` lists every thread's place). Lock acquisition is guarded by
no thread holding the lock; `Condvar::wait` releases `inner` and reacquires
it on wakeup (spurious wakeups are allowed — irrelevant for safety). -/
inductive Step : List PC → List PC → Prop
  | acquireInner (pcs : List PC) (i : Nat) (h : pcs[i]? = some .idle)
      (hfree : ∀ pc ∈ pcs, holdsInner pc = false) :
      Step pcs (pcs.set i .entered)
  | tryReadFail (pcs : List PC) (i : Nat) (h : pcs[i]? = some .entered)
      (j : Nat) (pcj : PC) (hj : pcs[j]? = some pcj)
      (hrj : holdsRead pcj = true) :
      Step pcs (pcs.set i .condWait)
  | tryReadOk (pcs : List PC) (i : Nat) (h : pcs[i]? = some .entered)
      (hfree : ∀ pc ∈ pcs, holdsRead pc = false) :
      Step pcs (pcs.set i .acquiredRead)
  | dropInner (pcs : List PC) (i : Nat) (h : pcs[i]? = some .acquiredRead) :
      Step pcs (pcs.set i .reading)
  | packetArrives (pcs : List PC) (i : Nat) (h : pcs[i]? = some .reading) :
      Step pcs (pcs.set i .reacquiring)
  | relockInner (pcs : List PC) (i : Nat) (h : pcs[i]? = some .reacquiring)
      (hfree : ∀ pc ∈ pcs, holdsInner pc = false) :
      Step pcs (pcs.set i .relocked)
  | dropRead (pcs : List PC) (i : Nat) (h : pcs[i]? = some .relocked) :
      Step pcs (pcs.set i .droppedRead)
  | enqueueReturn (pcs : List PC) (i : Nat) (h : pcs[i]? = some .droppedRead) :
      Step pcs (pcs.set i .entered)
  | releaseInner (pcs : List PC) (i : Nat) (h : pcs[i]? = some .entered) :
      Step pcs (pcs.set i .idle)
  | wakeup (pcs : List PC) (i : Nat) (h : pcs[i]? = some .condWait)
      (hfree : ∀ pc ∈ pcs, holdsInner pc = false) :
      Step pcs (pcs.set i .entered)

/-- Reachability from the all-idle initial state. -/
def Reach (n : Nat) (pcs : List PC) : Prop :=
  Relation.ReflTransGen Step (List.replicate n PC.idle) pcs

/-- The inductive invariant: `inner` and `read` are each held by at most one
thread, and no thread is at `droppedRead` while another is at `acquiredRead`
or `reading`. -/
def ProtocolInv (pcs : List PC) : Prop :=
  (∀ (i j : Nat) (pci pcj : PC), pcs[i]? = some pci → pcs[j]? = some pcj →
    holdsInner pci = true → holdsInner pcj = true → i = j) ∧
  (∀ (i j : Nat) (pci pcj : PC), pcs[i]? = some pci → pcs[j]? = some pcj →
    holdsRead pci = true → holdsRead pcj = true → i = j) ∧
  (∀ (i j : Nat) (pci pcj : PC), i ≠ j → pcs[i]? = some pci →
    pcs[j]? = some pcj →
    pci = .droppedRead → pcj ≠ .acquiredRead ∧ pcj ≠ .reading)

theorem getElem?_set_cases {l : List PC} {t j : Nat} {v w : PC}
    (h : (l.set t v)[j]? = some w) :
    (j = t ∧ w = v ∧ t < l.length) ∨ (j ≠ t ∧ l[j]? = some w) := by
  rw [List.getElem?_set] at h
  by_cases he : t = j
  · rw [if_pos he] at h
    by_cases hl : t < l.length
    · rw [if_pos hl] at h
      cases h
      exact Or.inl ⟨he.symm, rfl, hl⟩
    · rw [if_neg hl] at h
      cases h
  · rw [if_neg he] at h
    exact Or.inr ⟨fun hc => he hc.symm, h⟩

theorem excl_set_preserved {f : PC → Bool} {pcs : List PC} {t : Nat}
    {old v : PC} (hold : pcs[t]? = some old)
    (hexcl : ∀ (i j : Nat) (pci pcj : PC), pcs[i]? = some pci →
      pcs[j]? = some pcj → f pci = true → f pcj = true → i = j)
    (hcase : f v = true → f old = true ∨ ∀ pc ∈ pcs, f pc = false) :
    ∀ (i j : Nat) (pci pcj : PC), (pcs.set t v)[i]? = some pci →
      (pcs.set t v)[j]? = some pcj → f pci = true → f pcj = true → i = j := by
  intro i j pci pcj hi hj hfi hfj
  rcases getElem?_set_cases hi with ⟨hit, hpv, _⟩ | ⟨hit, hi'⟩ <;>
    rcases getElem?_set_cases hj with ⟨hjt, hqv, _⟩ | ⟨hjt, hj'⟩
  · rw [hit, hjt]
  · exfalso
    rw [hpv] at hfi
    rcases hcase hfi with hfo | hall
    · exact hjt (hexcl j t pcj old hj' hold hfj hfo)
    · rw [hall pcj (List.getElem?_mem hj')] at hfj
      cases hfj
  · exfalso
    rw [hqv] at hfj
    rcases hcase hfj with hfo | hall
    · exact hit (hexcl i t pci old hi' hold hfi hfo)
    · rw [hall pci (List.getElem?_mem hi')] at hfi
      cases hfi
  · exact hexcl i j pci pcj hi' hj' hfi hfj

theorem third_set_preserved_other {pcs : List PC} {t : Nat} {v : PC}
    (hv1 : v ≠ PC.droppedRead) (hv2 : v ≠ PC.acquiredRead)
    (hv3 : v ≠ PC.reading)
    (hD : ∀ (i j : Nat) (pci pcj : PC), i ≠ j → pcs[i]? = some pci →
      pcs[j]? = some pcj → pci = .droppedRead →
      pcj ≠ .acquiredRead ∧ pcj ≠ .reading) :
    ∀ (i j : Nat) (pci pcj : PC), i ≠ j → (pcs.set t v)[i]? = some pci →
      (pcs.set t v)[j]? = some pcj → pci = .droppedRead →
      pcj ≠ .acquiredRead ∧ pcj ≠ .reading := by
  intro i j pci pcj hij hi hj hdi
  rcases getElem?_set_cases hi with ⟨hit, hpv, _⟩ | ⟨hit, hi'⟩
  · rw [hpv] at hdi
    exact absurd hdi hv1
  · rcases getElem?_set_cases hj with ⟨hjt, hqv, _⟩ | ⟨hjt, hj'⟩
    · rw [hqv]
      exact ⟨hv2, hv3⟩
    · exact hD i j pci pcj hij hi' hj' hdi

theorem third_set_dropRead {pcs : List PC} {t : Nat}
    (hold : pcs[t]? = some .relocked)
    (hR : ∀ (i j : Nat) (pci pcj : PC), pcs[i]? = some pci →
      pcs[j]? = some pcj → holdsRead pci = true → holdsRead pcj = true →
      i = j)
    (hD : ∀ (i j : Nat) (pci pcj : PC), i ≠ j → pcs[i]? = some pci →
      pcs[j]? = some pcj → pci = .droppedRead →
      pcj ≠ .acquiredRead ∧ pcj ≠ .reading) :
    ∀ (i j : Nat) (pci pcj : PC), i ≠ j →
      (pcs.set t PC.droppedRead)[i]? = some pci →
      (pcs.set t PC.droppedRead)[j]? = some pcj → pci = .droppedRead →
      pcj ≠ .acquiredRead ∧ pcj ≠ .reading := by
  intro i j pci pcj hij hi hj hdi
  rcases getElem?_set_cases hj with ⟨hjt, hqv, _⟩ | ⟨hjt, hj'⟩
  · rw [hqv]
    refine ⟨fun hc => ?_, fun hc => ?_⟩ <;> cases hc
  · rcases getElem?_set_cases hi with ⟨hit, hpv, _⟩ | ⟨hit, hi'⟩
    · refine ⟨fun hc => hjt ?_, fun hc => hjt ?_⟩
      · exact hR j t pcj PC.relocked hj' hold (by rw [hc]; rfl) rfl
      · exact hR j t pcj PC.relocked hj' hold (by rw [hc]; rfl) rfl
    · exact hD i j pci pcj hij hi' hj' hdi

theorem third_set_tryReadOk {pcs : List PC} {t : Nat}
    (hold : pcs[t]? = some .entered)
    (hI : ∀ (i j : Nat) (pci pcj : PC), pcs[i]? = some pci →
      pcs[j]? = some pcj → holdsInner pci = true → holdsInner pcj = true →
      i = j)
    (hD : ∀ (i j : Nat) (pci pcj : PC), i ≠ j → pcs[i]? = some pci →
      pcs[j]? = some pcj → pci = .droppedRead →
      pcj ≠ .acquiredRead ∧ pcj ≠ .reading) :
    ∀ (i j : Nat) (pci pcj : PC), i ≠ j →
      (pcs.set t PC.acquiredRead)[i]? = some pci →
      (pcs.set t PC.acquiredRead)[j]? = some pcj → pci = .droppedRead →
      pcj ≠ .acquiredRead ∧ pcj ≠ .reading := by
  intro i j pci pcj hij hi hj hdi
  rcases getElem?_set_cases hi with ⟨hit, hpv, _⟩ | ⟨hit, hi'⟩
  · rw [hpv] at hdi
    cases hdi
  · rcases getElem?_set_cases hj with ⟨hjt, hqv, _⟩ | ⟨hjt, hj'⟩
    · exfalso
      apply hit
      exact hI i t pci PC.entered hi' hold (by rw [hdi]; rfl) rfl
    · exact hD i j pci pcj hij hi' hj' hdi

theorem third_set_dropInner {pcs : List PC} {t : Nat}
    (hold : pcs[t]? = some .acquiredRead)
    (hD : ∀ (i j : Nat) (pci pcj : PC), i ≠ j → pcs[i]? = some pci →
      pcs[j]? = some pcj → pci = .droppedRead →
      pcj ≠ .acquiredRead ∧ pcj ≠ .reading) :
    ∀ (i j : Nat) (pci pcj : PC), i ≠ j →
      (pcs.set t PC.reading)[i]? = some pci →
      (pcs.set t PC.reading)[j]? = some pcj → pci = .droppedRead →
      pcj ≠ .acquiredRead ∧ pcj ≠ .reading := by
  intro i j pci pcj hij hi hj hdi
  rcases getElem?_set_cases hi with ⟨hit, hpv, _⟩ | ⟨hit, hi'⟩
  · rw [hpv] at hdi
    cases hdi
  · rcases getElem?_set_cases hj with ⟨hjt, hqv, _⟩ | ⟨hjt, hj'⟩
    · exfalso
      have hcontra := hD i t pci PC.acquiredRead hit hi' hold hdi
      exact hcontra.1 rfl
    · exact hD i j pci pcj hij hi' hj' hdi

theorem step_preserves_inv {pcs pcs' : List PC} (hstep : Step pcs pcs')
    (hinv : ProtocolInv pcs) : ProtocolInv pcs' := by
  obtain ⟨hI, hR, hD⟩ := hinv
  cases hstep with
  | acquireInner i h hfree =>
    exact ⟨excl_set_preserved h hI (fun _ => Or.inr hfree),
      excl_set_preserved h hR (fun hv => absurd hv (by decide)),
      third_set_preserved_other (by decide) (by decide) (by decide) hD⟩
  | tryReadFail i h j pcj hj hrj =>
    exact ⟨excl_set_preserved h hI (fun hv => absurd hv (by decide)),
      excl_set_preserved h hR (fun hv => absurd hv (by decide)),
      third_set_preserved_other (by decide) (by decide) (by decide) hD⟩
  | tryReadOk i h hfree =>
    exact ⟨excl_set_preserved h hI (fun _ => Or.inl rfl),
      excl_set_preserved h hR (fun _ => Or.inr hfree),
      third_set_tryReadOk h hI hD⟩
  | dropInner i h =>
    exact ⟨excl_set_preserved h hI (fun hv => absurd hv (by decide)),
      excl_set_preserved h hR (fun _ => Or.inl rfl),
      third_set_dropInner h hD⟩
  | packetArrives i h =>
    exact ⟨excl_set_preserved h hI (fun hv => absurd hv (by decide)),
      excl_set_preserved h hR (fun _ => Or.inl rfl),
      third_set_preserved_other (by decide) (by decide) (by decide) hD⟩
  | relockInner i h hfree =>
    exact ⟨excl_set_preserved h hI (fun _ => Or.inr hfree),
      excl_set_preserved h hR (fun _ => Or.inl rfl),
      third_set_preserved_other (by decide) (by decide) (by decide) hD⟩
  | dropRead i h =>
    exact ⟨excl_set_preserved h hI (fun _ => Or.inl rfl),
      excl_set_preserved h hR (fun hv => absurd hv (by decide)),
      third_set_dropRead h hR hD⟩
  | enqueueReturn i h =>
    exact ⟨excl_set_preserved h hI (fun _ => Or.inl rfl),
      excl_set_preserved h hR (fun hv => absurd hv (by decide)),
      third_set_preserved_other (by decide) (by decide) (by decide) hD⟩
  | releaseInner i h =>
    exact ⟨excl_set_preserved h hI (fun hv => absurd hv (by decide)),
      excl_set_preserved h hR (fun hv => absurd hv (by decide)),
      third_set_preserved_other (by decide) (by decide) (by decide) hD⟩
  | wakeup i h hfree =>
    exact ⟨excl_set_preserved h hI (fun _ => Or.inr hfree),
      excl_set_preserved h hR (fun hv => absurd hv (by decide)),
      third_set_preserved_other (by decide) (by decide) (by decide) hD⟩

theorem replicate_get_idle {n i : Nat} {pc : PC}
    (h : (List.replicate n PC.idle)[i]? = some pc) : pc = PC.idle := by
  rw [List.getElem?_replicate] at h
  split at h
  · cases h
    rfl
  · cases h

theorem protocolInv_init (n : Nat) :
    ProtocolInv (List.replicate n PC.idle) := by
  refine ⟨?_, ?_, ?_⟩
  · intro i j pci pcj hi hj hfi hfj
    rw [replicate_get_idle hi] at hfi
    cases hfi
  · intro i j pci pcj hi hj hfi hfj
    rw [replicate_get_idle hi] at hfi
    cases hfi
  · intro i j pci pcj hij hi hj hdi
    rw [replicate_get_idle hi] at hdi
    cases hdi

theorem reach_inv {n : Nat} {pcs : List PC} (h : Reach n pcs) :
    ProtocolInv pcs := by
  induction h with
  | refl => exact protocolInv_init n
  | tail hsteps hstep ih => exact step_preserves_inv hstep ih

/-- C8: in every execution of the reader-rotation protocol, with any number
of threads, at most one thread holds the `read` lock (the reader role) at
any moment; and because a thread that has read a packet releases `read` only
after reacquiring `inner`, no other thread is inside — or holds the locks to
begin — a blocking read while a read packet is still unenqueued. -/
theorem reader_rotation_safety (n : Nat) (pcs : List PC) (h : Reach n pcs) :
    (∀ (i j : Nat) (pci pcj : PC), pcs[i]? = some pci → pcs[j]? = some pcj →
      holdsRead pci = true → holdsRead pcj = true → i = j) ∧
    (∀ (i j : Nat) (pci pcj : PC), i ≠ j → pcs[i]? = some pci →
      pcs[j]? = some pcj → holdsUnenqueued pci = true →
      pcj ≠ PC.acquiredRead ∧ pcj ≠ PC.reading) := by
  obtain ⟨hI, hR, hD⟩ := reach_inv h
  refine ⟨hR, ?_⟩
  intro i j pci pcj hij hi hj hu
  cases pci with
  | reacquiring =>
    refine ⟨fun hc => hij (hR i j _ _ hi hj rfl (by rw [hc]; rfl)),
      fun hc => hij (hR i j _ _ hi hj rfl (by rw [hc]; rfl))⟩
  | relocked =>
    refine ⟨fun hc => hij (hR i j _ _ hi hj rfl (by rw [hc]; rfl)),
      fun hc => hij (hR i j _ _ hi hj rfl (by rw [hc]; rfl))⟩
  | droppedRead => exact hD i j _ _ hij hi hj rfl
  | idle => cases hu
  | entered => cases hu
  | condWait => cases hu
  | acquiredRead => cases hu
  | reading => cases hu

/-- Witness for `reader_rotation_safety`: after three protocol steps two
threads reach the state where thread 0 is blocked reading and thread 1 is
idle; the safety conclusions hold there. -/
theorem reader_rotation_safety_witness :
    (∀ (i j : Nat) (pci pcj : PC),
      [PC.reading, PC.idle][i]? = some pci →
      [PC.reading, PC.idle][j]? = some pcj →
      holdsRead pci = true → holdsRead pcj = true → i = j) ∧
    (∀ (i j : Nat) (pci pcj : PC), i ≠ j →
      [PC.reading, PC.idle][i]? = some pci →
      [PC.reading, PC.idle][j]? = some pcj →
      holdsUnenqueued pci = true →
      pcj ≠ PC.acquiredRead ∧ pcj ≠ PC.reading) := by
  have hreach : Reach 2 [PC.reading, PC.idle] :=
    Relation.ReflTransGen.tail
      (Relation.ReflTransGen.tail
        (Relation.ReflTransGen.tail Relation.ReflTransGen.refl
          (Step.acquireInner [PC.idle, PC.idle] 0 rfl (by decide)))
        (Step.tryReadOk [PC.entered, PC.idle] 0 rfl (by decide)))
      (Step.dropInner [PC.acquiredRead, PC.idle] 0 rfl)
  exact reader_rotation_safety 2 [PC.reading, PC.idle] hreach

/-- The universe of supported wire types (`x11_utils.rs`): fixed-width
unsigned and signed integers, the floats `f32`/`f64` (forwarded to their
`u32`/`u64` bit patterns by `forward_float`), `bool`, and the type formers
that generate every tuple layout — the empty tuple and the pair, since tuple
serialization concatenates the components in order and tuple parsing is
sequential (`tuple_impls`, up to 15 elements in the code) — plus
fixed-length lists parsed with `parse_list`. -/
inductive PrimTy
  | u8
  | u16
  | u32
  | u64
  | i8
  | i16
  | i32
  | i64
  | f32
  | f64
  | boolT
  | unit
  | pair (a b : PrimTy)
  | arr (t : PrimTy) (n : Nat)
deriving DecidableEq

/-- Values of the wire types: unsigned integers and float bit patterns are
naturals, signed integers are integers, plus booleans, the empty tuple,
pairs and lists. -/
inductive PrimVal
  | natV (n : Nat)
  | intV (i : Int)
  | boolV (b : Bool)
  | unitV
  | pairV (a b : PrimVal)
  | arrV (vs : List PrimVal)

/-- A value inhabits a wire type: integers are in the range of their width
(floats are their bit patterns), list values have the list type's length. -/
def Valid : PrimTy → PrimVal → Prop
  | .u8, .natV n => n < 2 ^ 8
  | .u16, .natV n => n < 2 ^ 16
  | .u32, .natV n => n < 2 ^ 32
  | .u64, .natV n => n < 2 ^ 64
  | .i8, .intV i => -(2 ^ 7 : Int) ≤ i ∧ i < 2 ^ 7
  | .i16, .intV i => -(2 ^ 15 : Int) ≤ i ∧ i < 2 ^ 15
  | .i32, .intV i => -(2 ^ 31 : Int) ≤ i ∧ i < 2 ^ 31
  | .i64, .intV i => -(2 ^ 63 : Int) ≤ i ∧ i < 2 ^ 63
  | .f32, .natV n => n < 2 ^ 32
  | .f64, .natV n => n < 2 ^ 64
  | .boolT, .boolV _ => True
  | .unit, .unitV => True
  | .pair a b, .pairV x y => Valid a x ∧ Valid b y
  | .arr t n, .arrV vs => vs.length = n ∧ ∀ v ∈ vs, Valid t v
  | _, _ => False

/-- `to_ne_bytes` of a `w`-byte unsigned value, native order modelled as
little-endian. -/
def leBytes : Nat → Nat → List Nat
  | 0, _ => []
  | w + 1, n => n % 256 :: leBytes w (n / 256)

/-- `from_ne_bytes`: the unsigned value of a little-endian byte list. -/
def leValue : List Nat → Nat
  | [] => 0
  | b :: rest => b + 256 * leValue rest

/-- `implement_try_parse` for a `w`-byte unsigned integer: take the first
`w` bytes (failing on a short buffer) and return the value and the rest. -/
def parseUnsigned (w : Nat) (bytes : List Nat) : Option (Nat × List Nat) :=
  if w ≤ bytes.length then some (leValue (bytes.take w), bytes.drop w)
  else none

/-- `to_ne_bytes` of a `w`-byte signed integer: the two's-complement bit
pattern. -/
def encodeSigned (w : Nat) (i : Int) : List Nat :=
  leBytes w (i.emod (2 ^ (8 * w))).toNat

/-- Reinterpret a `w`-byte unsigned value as a two's-complement signed
integer. -/
def decodeSigned (w : Nat) (u : Nat) : Int :=
  if u < 2 ^ (8 * w - 1) then (u : Int) else (u : Int) - 2 ^ (8 * w)

/-- `implement_try_parse` for a `w`-byte signed integer. -/
def parseSigned (w : Nat) (bytes : List Nat) : Option (Int × List Nat) :=
  (parseUnsigned w bytes).map (fun r => (decodeSigned w r.1, r.2))

/-- `Serialize::serialize` on the universe (`x11_utils.rs`): fixed-width
integers write their native-order bytes, floats write their bit patterns
(`forward_float`), `bool` writes one byte (`u8::from`), the empty tuple
writes nothing, a pair concatenates its components' bytes
(`tuple_serialize`), and a slice serializes each element in order. -/
def PrimTy.serialize : PrimTy → PrimVal → List Nat
  | .u8, .natV n => leBytes 1 n
  | .u16, .natV n => leBytes 2 n
  | .u32, .natV n => leBytes 4 n
  | .u64, .natV n => leBytes 8 n
  | .i8, .intV i => encodeSigned 1 i
  | .i16, .intV i => encodeSigned 2 i
  | .i32, .intV i => encodeSigned 4 i
  | .i64, .intV i => encodeSigned 8 i
  | .f32, .natV n => leBytes 4 n
  | .f64, .natV n => leBytes 8 n
  | .boolT, .boolV b => [if b then 1 else 0]
  | .unit, .unitV => []
  | .pair a b, .pairV x y => a.serialize x ++ b.serialize y
  | .arr t _, .arrV vs => (vs.map t.serialize).flatten
  | _, _ => []

/-- `parse_list` (`x11_utils.rs`), generic over the element parser exactly
as the Rust function is generic over `T: TryParse`: parse `n` elements in
sequence, threading the remaining bytes. -/
def parse_list (elementParse : List Nat → Option (PrimVal × List Nat)) :
    Nat → List Nat → Option (List PrimVal × List Nat)
  | 0, bytes => some ([], bytes)
  | n + 1, bytes =>
    match elementParse bytes with
    | none => none
    | some (v, rest) =>
      match parse_list elementParse n rest with
      | none => none
      | some (vs, rest2) => some (v :: vs, rest2)

/-- `TryParse::try_parse` on the universe (`x11_utils.rs`): fixed-width
integers read their native-order bytes, floats read the bit pattern
(`from_bits` preserves it), `bool` reads one byte and compares with 0, the
empty tuple consumes nothing, a pair parses its components in sequence
(`tuple_try_parse`), and a fixed-length list uses `parse_list` with the
list's length. -/
def PrimTy.try_parse : PrimTy → List Nat → Option (PrimVal × List Nat)
  | .u8, bytes => (parseUnsigned 1 bytes).map (fun r => (.natV r.1, r.2))
  | .u16, bytes => (parseUnsigned 2 bytes).map (fun r => (.natV r.1, r.2))
  | .u32, bytes => (parseUnsigned 4 bytes).map (fun r => (.natV r.1, r.2))
  | .u64, bytes => (parseUnsigned 8 bytes).map (fun r => (.natV r.1, r.2))
  | .i8, bytes => (parseSigned 1 bytes).map (fun r => (.intV r.1, r.2))
  | .i16, bytes => (parseSigned 2 bytes).map (fun r => (.intV r.1, r.2))
  | .i32, bytes => (parseSigned 4 bytes).map (fun r => (.intV r.1, r.2))
  | .i64, bytes => (parseSigned 8 bytes).map (fun r => (.intV r.1, r.2))
  | .f32, bytes => (parseUnsigned 4 bytes).map (fun r => (.natV r.1, r.2))
  | .f64, bytes => (parseUnsigned 8 bytes).map (fun r => (.natV r.1, r.2))
  | .boolT, bytes =>
    (parseUnsigned 1 bytes).map (fun r => (.boolV (r.1 != 0), r.2))
  | .unit, bytes => some (.unitV, bytes)
  | .pair a b, bytes =>
    match a.try_parse bytes with
    | none => none
    | some (x, r1) =>
      match b.try_parse r1 with
      | none => none
      | some (y, r2) => some (.pairV x y, r2)
  | .arr t n, bytes =>
    (parse_list t.try_parse n bytes).map (fun r => (.arrV r.1, r.2))

theorem leBytes_length (w n : Nat) : (leBytes w n).length = w := by
  induction w generalizing n with
  | zero => rfl
  | succ w ih => simp [leBytes, ih]

theorem leValue_leBytes (w n : Nat) (h : n < 2 ^ (8 * w)) :
    leValue (leBytes w n) = n := by
  induction w generalizing n with
  | zero =>
    have h0 : n = 0 := by
      have h1 : (2 : Nat) ^ (8 * 0) = 1 := by norm_num
      omega
    subst h0
    rfl
  | succ w ih =>
    have h2 : (2 : Nat) ^ (8 * (w + 1)) = 2 ^ (8 * w) * 256 := by
      rw [Nat.mul_succ, pow_add]
      norm_num
    have hlt : n / 256 < 2 ^ (8 * w) := by
      rw [h2] at h
      omega
    show n % 256 + 256 * leValue (leBytes w (n / 256)) = n
    rw [ih (n / 256) hlt]
    omega

theorem parseUnsigned_leBytes (w n : Nat) (extra : List Nat)
    (h : n < 2 ^ (8 * w)) :
    parseUnsigned w (leBytes w n ++ extra) = some (n, extra) := by
  unfold parseUnsigned
  have hlen := leBytes_length w n
  rw [if_pos (by simp [hlen])]
  rw [List.take_left' hlen, List.drop_left' hlen, leValue_leBytes w n h]

theorem parseSigned_encodeSigned (w : Nat) (i : Int) (extra : List Nat)
    (h1 : -(2 ^ (8 * w - 1) : Int) ≤ i) (h2 : i < 2 ^ (8 * w - 1))
    (hw : 0 < w) :
    parseSigned w (encodeSigned w i ++ extra) = some (i, extra) := by
  have hm : 8 * w - 1 + 1 = 8 * w := by omega
  have hMi : (2 : Int) ^ (8 * w) = 2 ^ (8 * w - 1) * 2 := by
    conv_lhs => rw [← hm]
    rw [pow_succ]
  have hMpos : (0 : Int) < 2 ^ (8 * w) := by positivity
  have hlink : (((2 : Nat) ^ (8 * w) : Nat) : Int) = (2 : Int) ^ (8 * w) := by
    push_cast
    rfl
  have hlink2 : (((2 : Nat) ^ (8 * w - 1) : Nat) : Int) =
      (2 : Int) ^ (8 * w - 1) := by
    push_cast
    rfl
  have hu1 : 0 ≤ i.emod (2 ^ (8 * w)) := Int.emod_nonneg i (ne_of_gt hMpos)
  have hu2 : i.emod (2 ^ (8 * w)) < 2 ^ (8 * w) := Int.emod_lt_of_pos i hMpos
  have hemod : i.emod (2 ^ (8 * w)) = if 0 ≤ i then i else i + 2 ^ (8 * w) := by
    by_cases hs : 0 ≤ i
    · rw [if_pos hs]
      exact Int.emod_eq_of_lt hs (by omega)
    · rw [if_neg hs]
      have hshift : (i + 2 ^ (8 * w)).emod (2 ^ (8 * w)) =
          i.emod (2 ^ (8 * w)) := Int.add_emod_self
      rw [← hshift]
      exact Int.emod_eq_of_lt (by omega) (by omega)
  have hub : (i.emod (2 ^ (8 * w))).toNat < 2 ^ (8 * w) := by omega
  have hdec : decodeSigned w (i.emod (2 ^ (8 * w))).toNat = i := by
    unfold decodeSigned
    by_cases hs : 0 ≤ i
    · rw [hemod, if_pos hs, if_pos (by omega)]
      omega
    · rw [hemod, if_neg hs, if_neg (by omega)]
      omega
  unfold parseSigned encodeSigned
  rw [parseUnsigned_leBytes w _ extra hub]
  simp only [Option.map_some']
  rw [hdec]

theorem parse_list_roundtrip (t : PrimTy)
    (ih : ∀ (v : PrimVal) (extra : List Nat), Valid t v →
      t.try_parse (t.serialize v ++ extra) = some (v, extra))
    (vs : List PrimVal) :
    ∀ extra, (∀ v ∈ vs, Valid t v) →
      parse_list t.try_parse vs.length ((vs.map t.serialize).flatten ++ extra)
        = some (vs, extra) := by
  induction vs with
  | nil =>
    intro extra _
    rfl
  | cons v rest ihvs =>
    intro extra hmem
    simp only [List.map_cons, List.flatten_cons, List.length_cons, parse_list]
    rw [List.append_assoc, ih v _ (hmem v (List.mem_cons_self v rest))]
    dsimp only
    rw [ihvs _ (fun q hq => hmem q (List.mem_cons_of_mem v hq))]

/-- C4: serializing a value of any supported wire type with
`Serialize::serialize` and then parsing the resulting bytes with
`TryParse::try_parse` (with `parse_list` at the list's length for
fixed-length lists) returns the original value and consumes exactly the
serialized bytes: whatever follows them is returned as the remainder. -/
theorem serialize_parse_roundtrip (t : PrimTy) (v : PrimVal)
    (extra : List Nat) (hv : Valid t v) :
    t.try_parse (t.serialize v ++ extra) = some (v, extra) := by
  induction t generalizing v extra with
  | u8 =>
    cases v <;> first
      | exact hv.elim
      | (simp only [PrimTy.serialize, PrimTy.try_parse]
         rw [parseUnsigned_leBytes _ _ extra hv]
         rfl)
  | u16 =>
    cases v <;> first
      | exact hv.elim
      | (simp only [PrimTy.serialize, PrimTy.try_parse]
         rw [parseUnsigned_leBytes _ _ extra hv]
         rfl)
  | u32 =>
    cases v <;> first
      | exact hv.elim
      | (simp only [PrimTy.serialize, PrimTy.try_parse]
         rw [parseUnsigned_leBytes _ _ extra hv]
         rfl)
  | u64 =>
    cases v <;> first
      | exact hv.elim
      | (simp only [PrimTy.serialize, PrimTy.try_parse]
         rw [parseUnsigned_leBytes _ _ extra hv]
         rfl)
  | f32 =>
    cases v <;> first
      | exact hv.elim
      | (simp only [PrimTy.serialize, PrimTy.try_parse]
         rw [parseUnsigned_leBytes _ _ extra hv]
         rfl)
  | f64 =>
    cases v <;> first
      | exact hv.elim
      | (simp only [PrimTy.serialize, PrimTy.try_parse]
         rw [parseUnsigned_leBytes _ _ extra hv]
         rfl)
  | i8 =>
    cases v <;> first
      | exact hv.elim
      | (simp only [PrimTy.serialize, PrimTy.try_parse]
         rw [parseSigned_encodeSigned _ _ extra hv.1 hv.2 (by norm_num)]
         rfl)
  | i16 =>
    cases v <;> first
      | exact hv.elim
      | (simp only [PrimTy.serialize, PrimTy.try_parse]
         rw [parseSigned_encodeSigned _ _ extra hv.1 hv.2 (by norm_num)]
         rfl)
  | i32 =>
    cases v <;> first
      | exact hv.elim
      | (simp only [PrimTy.serialize, PrimTy.try_parse]
         rw [parseSigned_encodeSigned _ _ extra hv.1 hv.2 (by norm_num)]
         rfl)
  | i64 =>
    cases v <;> first
      | exact hv.elim
      | (simp only [PrimTy.serialize, PrimTy.try_parse]
         rw [parseSigned_encodeSigned _ _ extra hv.1 hv.2 (by norm_num)]
         rfl)
  | boolT =>
    cases v <;> first
      | exact hv.elim
      | (rename_i b
         simp only [PrimTy.serialize, PrimTy.try_parse]
         cases b <;>
           (unfold parseUnsigned
            rw [if_pos (by simp)]
            rfl))
  | unit =>
    cases v <;> first
      | exact hv.elim
      | rfl
  | pair a b iha ihb =>
    cases v <;> first
      | exact hv.elim
      | (rename_i x y
         simp only [PrimTy.serialize, PrimTy.try_parse]
         rw [List.append_assoc, iha x (b.serialize y ++ extra) hv.1]
         dsimp only
         rw [ihb y extra hv.2])
  | arr t n ih =>
    cases v <;> first
      | exact hv.elim
      | (rename_i vs
         obtain ⟨hlen, hmem⟩ := hv
         subst hlen
         simp only [PrimTy.serialize, PrimTy.try_parse]
         rw [parse_list_roundtrip t ih vs extra hmem]
         rfl)

/-- Witness for `serialize_parse_roundtrip`: the pair of an `i8` and a
two-element `u8` list — standing for the tuple `(i8, [u8; 2])` —
round-trips through serialization, consuming exactly its bytes and leaving
the trailing byte `9`. -/
theorem serialize_parse_roundtrip_witness :
    PrimTy.try_parse (.pair .i8 (.arr .u8 2))
        (PrimTy.serialize (.pair .i8 (.arr .u8 2))
          (.pairV (.intV (-5)) (.arrV [.natV 7, .natV 8])) ++ [9]) =
      some (.pairV (.intV (-5)) (.arrV [.natV 7, .natV 8]), [9]) :=
  serialize_parse_roundtrip (.pair .i8 (.arr .u8 2))
    (.pairV (.intV (-5)) (.arrV [.natV 7, .natV 8])) [9]
    ⟨show -(2 ^ 7 : Int) ≤ -5 ∧ (-5 : Int) < 2 ^ 7 by constructor <;> decide,
      show ([PrimVal.natV 7, PrimVal.natV 8].length = 2) from rfl,
      by
        intro q hq
        rcases List.mem_cons.mp hq with rfl | hq2
        · show (7 : Nat) < 2 ^ 8
          decide
        · rcases List.mem_cons.mp hq2 with rfl | h3
          · show (8 : Nat) < 2 ^ 8
            decide
          · cases h3⟩
